import Mathlib

/-!
Verification of the Outgoing/Synced state tracker of the git_helper
extension (src/src/extension.ts, with the variants under src/unnamed).

Strings are embedded as lists of characters (`Str`), and the JavaScript
string operations used by the source (split on a character, join, trim,
includes, template interpolation of `undefined`) are defined over them.
The external git command-line tool is a backend record: each command
template the source shells out to is one field returning either its
stdout or an error, mirroring a resolved or rejected promise.  Thrown
exceptions are `Except.error`; every `try { ... } catch { ... }` block
becomes a `match` on the `Except` value of the translated `try` body.
-/

abbrev Str := List Char

def str (s : String) : Str := s.data

/-- Whitespace test used by the embedding of JavaScript `trim`. -/
def isWS (c : Char) : Bool := c = ' ' || c = '\t' || c = '\n' || c = '\r'

/-- JavaScript `s.trim()`: strip leading and trailing whitespace. -/
def trim (s : Str) : Str := ((s.dropWhile isWS).reverse.dropWhile isWS).reverse

/-- Truthiness of `line.trim()` in the source's `filter(line => line.trim())`. -/
def keepLine (line : Str) : Bool := !(trim line).isEmpty

/-- JavaScript `s.split(sep)` for a one-character separator. -/
def splitChar (sep : Char) : Str → List Str
  | [] => [[]]
  | c :: cs =>
    if c = sep then [] :: splitChar sep cs
    else
      match splitChar sep cs with
      | [] => [[c]]
      | r :: rs => (c :: r) :: rs

/-- JavaScript `parts.join(sep)` for a one-character separator. -/
def joinWith (sep : Char) : List Str → Str
  | [] => []
  | [x] => x
  | x :: y :: xs => x ++ sep :: joinWith sep (y :: xs)

/-- JavaScript `hay.includes(needle)`. -/
def strIncludes : Str → Str → Bool
  | [], needle => needle.isEmpty
  | c :: t, needle => needle.isPrefixOf (c :: t) || strIncludes t needle

/-- Line-oriented command output: every line terminated by a newline,
as `git log --oneline` and `git diff --name-status` print it. -/
def linesOut : List Str → Str
  | [] => []
  | l :: ls => l ++ '\n' :: linesOut ls

/-- JavaScript template interpolation `${x}` of a possibly-undefined value. -/
def jsShow : Option Str → Str
  | Option.some s => s
  | Option.none => str "undefined"

/-- vscode.TreeItemCollapsibleState. -/
inductive CollapsibleState where
  | collapsedNone
  | collapsed
  | expanded
deriving DecidableEq, Repr

/-- The tree item class of extension.ts (label, state and the optional
itemType / file / status / hash constructor parameters). -/
structure GitOutgoingItem where
  label : Str
  collapsibleState : CollapsibleState
  itemType : Option Str
  file : Option Str
  status : Option Str
  hash : Option Str
deriving DecidableEq, Repr

/-- An informational item: only a label and a collapsible state, the way
`new GitOutgoingItem('...', TreeItemCollapsibleState.None)` builds one. -/
def plainItem (label : Str) : GitOutgoingItem :=
  ⟨label, CollapsibleState.collapsedNone, Option.none, Option.none, Option.none, Option.none⟩

/-- A root category item (`TreeItemCollapsibleState.Expanded`). -/
def expandedItem (label : Str) : GitOutgoingItem :=
  ⟨label, CollapsibleState.expanded, Option.none, Option.none, Option.none, Option.none⟩

/-- A rejected command: an `Error` object whose `message` may be absent. -/
structure GitError where
  message : Option Str
deriving DecidableEq, Repr

/-- JavaScript `error?.message || 'Unknown error'`. -/
def errText (e : GitError) : Str :=
  match e.message with
  | Option.some m => if m.isEmpty then str "Unknown error" else m
  | Option.none => str "Unknown error"

/-- The git command-line backend: one field per command template the
source executes with `execAsync`, returning stdout or a rejection. -/
structure GitBackend where
  /-- `git rev-parse --abbrev-ref HEAD` -/
  revParseHead : Except GitError Str
  /-- `git rev-parse --is-inside-work-tree` -/
  isInsideWorkTree : Except GitError Str
  /-- `git remote get-url origin` -/
  remoteGetUrl : Except GitError Str
  /-- `git merge-base origin/<branch> <branch>` -/
  mergeBase : Str → Except GitError Str
  /-- `git log <base>..<tip> --oneline` -/
  logOneline : Str → Str → Except GitError Str
  /-- `git log <base>..<tip> --pretty=format:"%H"` -/
  logHashes : Str → Str → Except GitError Str
  /-- `git show --name-status --pretty=format: <hash>` -/
  showNameStatus : Str → Except GitError Str
  /-- `git log <m>^..<m> --oneline` -/
  logMarkerOneline : Str → Except GitError Str
  /-- `git diff --name-status <m>^..<m>` -/
  diffMarkerNameStatus : Str → Except GitError Str

/-- `GitOutgoingProvider.getCurrentBranch`: trimmed stdout of
`git rev-parse --abbrev-ref HEAD`. -/
def getCurrentBranch (b : GitBackend) : Except GitError Str :=
  match b.revParseHead with
  | .error e => .error e
  | .ok out => .ok (trim out)

/-- `PushStateTracker.updateLastPushHash`: queries the current branch and
the merge-base with its origin counterpart; on any failure the stored
hash becomes null.  The previous marker value is the last argument and
is overwritten unconditionally. -/
def updateLastPushHash (b : GitBackend) (_prev : Option Str) : Option Str :=
  match b.revParseHead with
  | .error _ => Option.none
  | .ok currentBranch =>
    match b.mergeBase (trim currentBranch) with
    | .error _ => Option.none
    | .ok out => Option.some (trim out)

/-- `GitOutgoingProvider.getStatusIcon`. -/
def getStatusIcon (status : Str) : Str :=
  if status = str "M" then str "📝"
  else if status = str "A" then str "➕"
  else if status = str "D" then str "❌"
  else if status = str "R" then str "🔄"
  else if status = str "C" then str "📋"
  else if status = str "U" then str "⚠️"
  else if status = str "T" then str "📋"
  else str "��"

/-- One `git log --oneline` line mapped to a tree item:
`const [hash, ...messageParts] = commit.split(' ')`, the label is
`` `${message} (${hash})` `` and the item carries type 'commit'. -/
def commitItemOfLine (commit : Str) : GitOutgoingItem :=
  let parts := splitChar ' ' commit
  let hash := parts.headD []
  let message := joinWith ' ' parts.tail
  ⟨message ++ str " (" ++ hash ++ str ")", CollapsibleState.collapsedNone,
    Option.some (str "commit"), Option.none, Option.none, Option.some hash⟩

/-- The `try` body of `GitOutgoingProvider.getOutgoingCommits`. -/
def getOutgoingCommitsBody (b : GitBackend) (workspaceRoot : Option Str)
    (lastPushHash : Option Str) : Except GitError (List GitOutgoingItem) :=
  match getCurrentBranch b with
  | .error e => .error e
  | .ok currentBranch =>
    match workspaceRoot with
    | Option.none => .ok []
    | Option.some _ =>
      match b.isInsideWorkTree with
      | .error _ => .ok [plainItem (str "Not a git repository")]
      | .ok _ =>
        match b.remoteGetUrl with
        | .error _ => .ok [plainItem (str "No remote origin found")]
        | .ok _ =>
          match (match lastPushHash with
                 | Option.some h => b.logOneline h currentBranch
                 | Option.none => b.logOneline (str "origin/" ++ currentBranch) currentBranch) with
          | .error e => .error e
          | .ok stdout =>
            let outgoingCommits := (splitChar '\n' stdout).filter keepLine
            if outgoingCommits.isEmpty then .ok [plainItem (str "No outgoing commits")]
            else .ok (outgoingCommits.map commitItemOfLine)

/-- `GitOutgoingProvider.getOutgoingCommits` with its enclosing catch. -/
def getOutgoingCommits (b : GitBackend) (workspaceRoot : Option Str)
    (lastPushHash : Option Str) : List GitOutgoingItem :=
  match getOutgoingCommitsBody b workspaceRoot lastPushHash with
  | .ok items => items
  | .error e => [plainItem (str "Error loading commits: " ++ errText e)]

/-- `filesSet.add(file)` together with
`if (!filesStatus.has(file)) filesStatus.set(file, status)`: an
insertion-ordered association list where the first status wins. -/
def insertFile (acc : List (Str × Str)) (file status : Str) : List (Str × Str) :=
  if acc.any (fun p => decide (p.1 = file)) then acc else acc ++ [(file, status)]

/-- The body of the per-line loop of `getChangedFiles`:
`const [status, file] = line.split('\t'); if (file) { ... }`. -/
def addFileLine (acc : List (Str × Str)) (line : Str) : List (Str × Str) :=
  let parts := splitChar '\t' line
  let status := parts.headD []
  match parts.tail.head? with
  | Option.some file => if file.isEmpty then acc else insertFile acc file status
  | Option.none => acc

/-- One iteration of the per-commit loop of `getChangedFiles`: run
`git show --name-status --pretty=format: <hash>`, split the output into
non-blank lines and fold them into the file/status accumulator.  The
`execAsync` rejection propagates out of the loop. -/
def processCommit (b : GitBackend) (acc : List (Str × Str)) (commitHash : Str) :
    Except GitError (List (Str × Str)) :=
  match b.showNameStatus commitHash with
  | .error e => .error e
  | .ok filesOutput =>
    .ok (((splitChar '\n' filesOutput).filter keepLine).foldl addFileLine acc)

/-- The `try` body of `GitOutgoingProvider.getChangedFiles`. -/
def getChangedFilesBody (b : GitBackend) (workspaceRoot : Option Str)
    (lastPushHash : Option Str) : Except GitError (List GitOutgoingItem) :=
  match getCurrentBranch b with
  | .error e => .error e
  | .ok currentBranch =>
    match workspaceRoot with
    | Option.none => .ok []
    | Option.some _ =>
      match b.isInsideWorkTree with
      | .error _ => .ok [plainItem (str "Not a git repository")]
      | .ok _ =>
        match b.remoteGetUrl with
        | .error _ => .ok [plainItem (str "No remote origin found")]
        | .ok _ =>
          match (match lastPushHash with
                 | Option.some h => b.logHashes h currentBranch
                 | Option.none => b.logHashes (str "origin/" ++ currentBranch) currentBranch) with
          | .error e => .error e
          | .ok commitsOutput =>
            if (trim commitsOutput).isEmpty then .ok [plainItem (str "No outgoing commits")]
            else
              let commitHashes := (splitChar '\n' commitsOutput).filter keepLine
              match commitHashes.foldlM (processCommit b) [] with
              | .error e => .error e
              | .ok fileStatuses =>
                if fileStatuses.isEmpty then
                  .ok [plainItem (str "No changes in outgoing commits")]
                else
                  .ok (fileStatuses.map (fun fs =>
                    let file := fs.1
                    let status := if fs.2.isEmpty then str "M" else fs.2
                    ⟨getStatusIcon status ++ ' ' :: file, CollapsibleState.collapsedNone,
                      Option.some (str "file"), Option.some file, Option.some status,
                      Option.none⟩))

/-- `GitOutgoingProvider.getChangedFiles` with its enclosing catch. -/
def getChangedFiles (b : GitBackend) (workspaceRoot : Option Str)
    (lastPushHash : Option Str) : List GitOutgoingItem :=
  match getChangedFilesBody b workspaceRoot lastPushHash with
  | .ok items => items
  | .error e => [plainItem (str "Error loading files: " ++ errText e)]

/-- The `try` body of `GitOutgoingProvider.getSyncedCommits`:
`git log <m>^..<m> --oneline` for the stored push marker `m`. -/
def getSyncedCommitsBody (b : GitBackend) (lastPushHash : Option Str) :
    Except GitError (List GitOutgoingItem) :=
  match getCurrentBranch b with
  | .error e => .error e
  | .ok _ =>
    match lastPushHash with
    | Option.none => .ok [plainItem (str "No synced commits")]
    | Option.some h =>
      match b.logMarkerOneline h with
      | .error e => .error e
      | .ok stdout =>
        let commits := (splitChar '\n' stdout).filter keepLine
        if commits.isEmpty then .ok [plainItem (str "No synced commits")]
        else .ok (commits.map commitItemOfLine)

/-- `GitOutgoingProvider.getSyncedCommits` with its enclosing catch. -/
def getSyncedCommits (b : GitBackend) (lastPushHash : Option Str) :
    List GitOutgoingItem :=
  match getSyncedCommitsBody b lastPushHash with
  | .ok items => items
  | .error _ => [plainItem (str "Error loading synced commits")]

/-- The `try` body of `GitOutgoingProvider.getSyncedFiles`:
`git diff --name-status <m>^..<m>`, every non-blank line mapped to an
item with no guard on the presence of the tab-separated file field. -/
def getSyncedFilesBody (b : GitBackend) (lastPushHash : Option Str) :
    Except GitError (List GitOutgoingItem) :=
  match getCurrentBranch b with
  | .error e => .error e
  | .ok _ =>
    match lastPushHash with
    | Option.none => .ok [plainItem (str "No synced files")]
    | Option.some h =>
      match b.diffMarkerNameStatus h with
      | .error e => .error e
      | .ok stdout =>
        if (trim stdout).isEmpty then .ok [plainItem (str "No synced files")]
        else
          .ok (((splitChar '\n' stdout).filter keepLine).map (fun line =>
            let parts := splitChar '\t' line
            let status := parts.headD []
            let file := parts.tail.head?
            ⟨getStatusIcon status ++ ' ' :: jsShow file, CollapsibleState.collapsedNone,
              Option.some (str "file"), file, Option.some status, Option.none⟩))

/-- `GitOutgoingProvider.getSyncedFiles` with its enclosing catch. -/
def getSyncedFiles (b : GitBackend) (lastPushHash : Option Str) :
    List GitOutgoingItem :=
  match getSyncedFilesBody b lastPushHash with
  | .ok items => items
  | .error _ => [plainItem (str "Error loading synced files")]

/-- The four root category items of `getChildren`. -/
def rootItems : List GitOutgoingItem :=
  [expandedItem (str "📦 Outgoing Commits"),
   expandedItem (str "📄 Changed Files"),
   expandedItem (str "✅ Synced Commits"),
   expandedItem (str "📋 Synced Files")]

/-- `GitOutgoingProvider.getChildren`: empty when there is no workspace
root, the four categories at the root, and label-dispatched children. -/
def getChildren (b : GitBackend) (workspaceRoot : Option Str)
    (lastPushHash : Option Str) (element : Option GitOutgoingItem) :
    List GitOutgoingItem :=
  match workspaceRoot with
  | Option.none => []
  | Option.some _ =>
    match element with
    | Option.none => rootItems
    | Option.some el =>
      if el.label = str "📦 Outgoing Commits" then
        getOutgoingCommits b workspaceRoot lastPushHash
      else if el.label = str "📄 Changed Files" then
        getChangedFiles b workspaceRoot lastPushHash
      else if el.label = str "✅ Synced Commits" then
        getSyncedCommits b lastPushHash
      else if el.label = str "📋 Synced Files" then
        getSyncedFiles b lastPushHash
      else []

/-- Backend of `GitContentProvider`: the filesystem read used for new
files and the two git commands it runs. -/
structure ContentBackend where
  /-- `fs.promises.readFile(path.join(workspaceRoot, filePath), 'utf8')` -/
  readFileWd : Str → Except GitError Str
  /-- `git rev-parse --verify <ref>` -/
  revParseVerify : Str → Except GitError Str
  /-- `git show <ref>:"<filePath>"` -/
  showRefFile : Str → Str → Except GitError Str

/-- `GitContentProvider.provideTextDocumentContent`, with the URI already
decomposed into its path and its `ref` / `new` query parameters.  The
`throw new Error('No git reference provided')` is the only `.error`. -/
def provideTextDocumentContent (cb : ContentBackend) (workspaceRoot : Option Str)
    (filePath : Str) (ref : Option Str) (isNewFile : Bool) : Except GitError Str :=
  match workspaceRoot with
  | Option.none => .ok (str "No workspace root available")
  | Option.some _ =>
    if isNewFile then
      match cb.readFileWd filePath with
      | .ok content => .ok content
      | .error e => .ok (str "Error reading file: " ++ errText e)
    else
      match ref with
      | Option.none => .error ⟨Option.some (str "No git reference provided")⟩
      | Option.some r =>
        match (match cb.revParseVerify r with
               | .error e => .error e
               | .ok _ => cb.showRefFile r filePath : Except GitError Str) with
        | .ok stdout => .ok stdout
        | .error e =>
          match e.message with
          | Option.some m =>
            if strIncludes m (str "does not exist") then
              .ok (str "File \"" ++ filePath ++ str "\" does not exist at commit " ++ r)
            else if strIncludes m (str "bad revision") then
              .ok (str "Invalid git reference: " ++ r)
            else if strIncludes m (str "Path") then
              .ok (str "File \"" ++ filePath ++ str "\" not found at commit " ++ r)
            else .ok (str "Error loading file content from git: " ++ m)
          | Option.none => .ok (str "Error loading file content from git: " ++ errText e)

/-- Backend of the `gitOutgoingView.showFileDiff` handler of the
src/unnamed/part_001 variant. -/
structure FileDiffBackend where
  /-- `git rev-parse --abbrev-ref HEAD` -/
  revParseHead : Except GitError Str
  /-- `git show <branch>:<file>` -/
  showBranchFile : Str → Str → Except GitError Str
  /-- `git show origin/<branch>:<file>` -/
  showOriginFile : Str → Str → Except GitError Str

/-- The old/new diff contents computed by the `gitOutgoingView.showFileDiff`
handler of src/unnamed/part_001: empty old content for an added file, and
empty old content when the file is missing from the remote branch. -/
def showFileDiffContents (fb : FileDiffBackend) (file status : Str) :
    Except GitError (Str × Str) :=
  match fb.revParseHead with
  | .error e => .error e
  | .ok out =>
    let currentBranch := trim out
    if status = str "A" then
      match fb.showBranchFile currentBranch file with
      | .error e => .error e
      | .ok newContent => .ok ([], newContent)
    else
      let oldContent :=
        match fb.showOriginFile currentBranch file with
        | .ok remoteContent => remoteContent
        | .error _ => []
      match fb.showBranchFile currentBranch file with
      | .error e => .error e
      | .ok newContent => .ok (oldContent, newContent)

/-!
A model of the external git repository, used to state the range claims:
a linear local branch history, newest first, together with the hash the
remote tracking reference points at.  The backend built from it answers
each command template the way git answers it on such a repository.
-/

/-- A commit of the model: id, one-line summary, and the name-status
rows `git show --name-status` prints for it (status, path). -/
structure Commit where
  hash : Str
  message : Str
  files : List (Str × Str)
deriving DecidableEq, Repr

/-- The repository model: current branch name, linear history of the
local branch (newest first, down to the root commit), and the hash of
the remote tracking tip `origin/<branch>`. -/
structure RepoModel where
  branch : Str
  history : List Commit
  remoteTip : Str
deriving DecidableEq, Repr

/-- The commits of `(base, tip]` on a linear history listed newest
first: the prefix of the history strictly above the base commit. -/
def outgoingAfter (history : List Commit) (base : Str) : List Commit :=
  history.takeWhile (fun c => decide (c.hash ≠ base))

/-- The `git log --oneline` line of a commit. -/
def commitLine (c : Commit) : Str := c.hash ++ ' ' :: c.message

/-- A ref string resolved against the model: `origin/<branch>` names the
remote tracking tip, anything else is taken as a commit hash. -/
def resolveRef (M : RepoModel) (r : Str) : Str :=
  if r = str "origin/" ++ M.branch then M.remoteTip else r

/-- The name-status row of a `git show --name-status` / `git diff
--name-status` output line. -/
def fileLine (sf : Str × Str) : Str := sf.1 ++ '\t' :: sf.2

/-- The backend a repository matching `RepoModel` presents: log ranges
list the commits strictly above the (resolved) base, newest first;
`<m>^..<m>` ranges list exactly the marker commit and fail when `m` is
the root commit or unknown. -/
def modelBackend (M : RepoModel) : GitBackend where
  revParseHead := .ok M.branch
  isInsideWorkTree := .ok (str "true")
  remoteGetUrl := .ok (str "git@example.com:origin.git")
  mergeBase := fun _ => .ok M.remoteTip
  logOneline := fun base _ =>
    .ok (linesOut ((outgoingAfter M.history (resolveRef M base)).map commitLine))
  logHashes := fun base _ =>
    .ok (linesOut ((outgoingAfter M.history (resolveRef M base)).map Commit.hash))
  showNameStatus := fun h =>
    match M.history.find? (fun c => decide (c.hash = h)) with
    | Option.some c => .ok (linesOut (c.files.map fileLine))
    | Option.none => .error ⟨Option.some (str "fatal: bad object")⟩
  logMarkerOneline := fun m =>
    match M.history.dropWhile (fun c => decide (c.hash ≠ m)) with
    | [] => .error ⟨Option.some (str "fatal: bad revision")⟩
    | c :: rest =>
      if rest.isEmpty then .error ⟨Option.some (str "fatal: bad revision")⟩
      else .ok (linesOut [commitLine c])
  diffMarkerNameStatus := fun m =>
    match M.history.dropWhile (fun c => decide (c.hash ≠ m)) with
    | [] => .error ⟨Option.some (str "fatal: bad revision")⟩
    | c :: rest =>
      if rest.isEmpty then .error ⟨Option.some (str "fatal: bad revision")⟩
      else .ok (linesOut (c.files.map fileLine))

/-- Well-formedness of the model: the branch name needs no trimming,
hashes are non-empty, free of whitespace and pairwise distinct, and
summaries contain no newline. -/
def RepoWF (M : RepoModel) : Prop :=
  trim M.branch = M.branch ∧
  (∀ c ∈ M.history, c.hash ≠ []) ∧
  (∀ c ∈ M.history, ∀ ch ∈ c.hash, isWS ch = false) ∧
  (∀ c ∈ M.history, '\n' ∉ c.message) ∧
  (M.history.map Commit.hash).Nodup

/-- The tree item the provider is expected to build for a model commit. -/
def expectedCommitItem (c : Commit) : GitOutgoingItem :=
  ⟨c.message ++ str " (" ++ c.hash ++ str ")", CollapsibleState.collapsedNone,
    Option.some (str "commit"), Option.none, Option.none, Option.some c.hash⟩

/-- The items of a result that carry a commit (itemType 'commit'),
informational entries excluded. -/
def commitItems (items : List GitOutgoingItem) : List GitOutgoingItem :=
  items.filter (fun it => decide (it.itemType = Option.some (str "commit")))

/-!
Lemmas about the embedded JavaScript string operations.
-/

theorem splitChar_ne_nil (sep : Char) (s : Str) : splitChar sep s ≠ [] := by
  cases s with
  | nil => simp [splitChar]
  | cons c cs =>
    simp only [splitChar]
    split
    · simp
    · split <;> simp

theorem splitChar_not_mem {sep : Char} {s : Str} (h : sep ∉ s) : splitChar sep s = [s] := by
  induction s with
  | nil => rfl
  | cons c cs ih =>
    have hc : ¬ c = sep := fun hch => h (hch ▸ List.mem_cons_self c cs)
    have hcs : sep ∉ cs := fun hm => h (List.mem_cons_of_mem c hm)
    simp only [splitChar, if_neg hc, ih hcs]

theorem splitChar_append {sep : Char} {l : Str} (r : Str) (h : sep ∉ l) :
    splitChar sep (l ++ sep :: r) = l :: splitChar sep r := by
  induction l with
  | nil => simp [splitChar]
  | cons c cs ih =>
    have hc : ¬ c = sep := fun hch => h (hch ▸ List.mem_cons_self c cs)
    have hcs : sep ∉ cs := fun hm => h (List.mem_cons_of_mem c hm)
    simp only [List.cons_append, splitChar, if_neg hc, List.append_eq, ih hcs]

theorem joinWith_splitChar (sep : Char) (s : Str) : joinWith sep (splitChar sep s) = s := by
  induction s with
  | nil => rfl
  | cons c cs ih =>
    by_cases hc : c = sep
    · subst hc
      simp only [splitChar, if_pos rfl]
      match h : splitChar c cs with
      | [] => exact absurd h (splitChar_ne_nil c cs)
      | r :: rs =>
        rw [h] at ih
        simpa [joinWith] using ih
    · simp only [splitChar, if_neg hc]
      match h : splitChar sep cs with
      | [] => exact absurd h (splitChar_ne_nil sep cs)
      | r :: rs =>
        rw [h] at ih
        cases rs with
        | nil =>
          simp only [joinWith] at ih ⊢
          rw [ih]
        | cons r2 rs' =>
          simp only [joinWith] at ih ⊢
          rw [List.cons_append, ih]

theorem linesOut_splitChar {ls : List Str} (h : ∀ l ∈ ls, '\n' ∉ l) :
    splitChar '\n' (linesOut ls) = ls ++ [[]] := by
  induction ls with
  | nil => rfl
  | cons l ls ih =>
    simp only [linesOut]
    rw [splitChar_append _ (h l (List.mem_cons_self l ls)),
      ih (fun x hx => h x (List.mem_cons_of_mem l hx))]
    rfl

theorem trim_eq_nil_iff {s : Str} : trim s = [] ↔ ∀ c ∈ s, isWS c = true := by
  unfold trim
  rw [List.reverse_eq_nil_iff, List.dropWhile_eq_nil_iff]
  constructor
  · intro h c hc
    have hc2 : c ∈ s.takeWhile isWS ++ s.dropWhile isWS := by
      rw [List.takeWhile_append_dropWhile]; exact hc
    rcases List.mem_append.mp hc2 with h1 | h1
    · exact List.mem_takeWhile_imp h1
    · exact h _ (List.mem_reverse.mpr h1)
  · intro h x hx
    exact h x ((List.dropWhile_sublist _).subset (List.mem_reverse.mp hx))

theorem keepLine_iff {s : Str} : keepLine s = true ↔ ∃ c ∈ s, isWS c = false := by
  constructor
  · intro hk
    by_contra hn
    push_neg at hn
    have ht : trim s = [] :=
      trim_eq_nil_iff.mpr fun c hc => Bool.ne_false_iff.mp (hn c hc)
    simp only [keepLine, ht] at hk
    exact absurd hk (by decide)
  · rintro ⟨c, hc, hw⟩
    simp only [keepLine]
    cases h : (trim s).isEmpty
    · rfl
    · exfalso
      have h0 : trim s = [] := by
        cases h2 : trim s with
        | nil => rfl
        | cons a t => rw [h2] at h; exact absurd h (by simp)
      have := trim_eq_nil_iff.mp h0 c hc
      rw [hw] at this
      exact Bool.false_ne_true this

theorem keepLine_of_mem {s : Str} {c : Char} (hc : c ∈ s) (hw : isWS c = false) :
    keepLine s = true := keepLine_iff.mpr ⟨c, hc, hw⟩

theorem trim_isEmpty_false {s : Str} (h : keepLine s = true) :
    (trim s).isEmpty = false := by
  simpa [keepLine] using h

theorem filter_keepLine_append {ls : List Str} (h : ∀ l ∈ ls, keepLine l = true) :
    (ls ++ [[]]).filter keepLine = ls := by
  have h0 : keepLine ([] : Str) = false := rfl
  rw [List.filter_append, List.filter_eq_self.mpr h]
  simp [List.filter_cons, h0]

/-!
Lemmas about the parsing pipeline applied to model output.
-/

theorem space_not_mem_hash {c : Commit} (hws : ∀ ch ∈ c.hash, isWS ch = false) :
    ' ' ∉ c.hash := fun hm => absurd (hws ' ' hm) (by decide)

theorem newline_not_mem_commitLine {c : Commit} (hws : ∀ ch ∈ c.hash, isWS ch = false)
    (hm : '\n' ∉ c.message) : '\n' ∉ commitLine c := by
  unfold commitLine
  intro hmem
  rcases List.mem_append.mp hmem with h1 | h1
  · exact absurd (hws _ h1) (by decide)
  · rcases List.mem_cons.mp h1 with h2 | h2
    · exact absurd h2 (by decide)
    · exact hm h2

theorem keepLine_commitLine {c : Commit} (hne : c.hash ≠ [])
    (hws : ∀ ch ∈ c.hash, isWS ch = false) : keepLine (commitLine c) = true := by
  obtain ⟨ch, t, hct⟩ : ∃ ch t, c.hash = ch :: t := by
    cases hch : c.hash with
    | nil => exact absurd hch hne
    | cons a b => exact ⟨a, b, rfl⟩
  have hmem : ch ∈ commitLine c := by
    unfold commitLine; rw [hct]
    exact List.mem_append_left _ (List.mem_cons_self _ _)
  exact keepLine_of_mem hmem (hws ch (by rw [hct]; exact List.mem_cons_self _ _))

theorem commitItemOfLine_commitLine {c : Commit} (h : ' ' ∉ c.hash) :
    commitItemOfLine (commitLine c) = expectedCommitItem c := by
  unfold commitItemOfLine commitLine expectedCommitItem
  rw [splitChar_append _ h]
  simp [joinWith_splitChar]

theorem outgoing_lines (hist : List Commit) (x : Str)
    (hne : ∀ c ∈ hist, c.hash ≠ [])
    (hws : ∀ c ∈ hist, ∀ ch ∈ c.hash, isWS ch = false)
    (hnl : ∀ c ∈ hist, '\n' ∉ c.message) :
    (splitChar '\n' (linesOut ((outgoingAfter hist x).map commitLine))).filter keepLine
      = (outgoingAfter hist x).map commitLine := by
  have hsub : ∀ c ∈ outgoingAfter hist x, c ∈ hist := fun c hc =>
    (List.takeWhile_sublist _).subset hc
  have h1 : ∀ l ∈ (outgoingAfter hist x).map commitLine, '\n' ∉ l := by
    intro l hl
    rcases List.mem_map.mp hl with ⟨c, hc, rfl⟩
    exact newline_not_mem_commitLine (hws c (hsub c hc)) (hnl c (hsub c hc))
  have h2 : ∀ l ∈ (outgoingAfter hist x).map commitLine, keepLine l = true := by
    intro l hl
    rcases List.mem_map.mp hl with ⟨c, hc, rfl⟩
    exact keepLine_commitLine (hne c (hsub c hc)) (hws c (hsub c hc))
  rw [linesOut_splitChar h1, filter_keepLine_append h2]

theorem commitItems_map_expected (l : List Commit) :
    commitItems (l.map expectedCommitItem) = l.map expectedCommitItem := by
  apply List.filter_eq_self.mpr
  intro it hit
  rcases List.mem_map.mp hit with ⟨c, _, rfl⟩
  simp [expectedCommitItem]

theorem commitItems_plain (label : Str) : commitItems [plainItem label] = [] := by
  simp [commitItems, plainItem]

theorem head_dropWhile_hash {hist : List Commit} {m : Str}
    (hm : m ∈ hist.map Commit.hash) :
    (hist.dropWhile (fun c => decide (c.hash ≠ m))).head?.map Commit.hash
      = Option.some m := by
  induction hist with
  | nil => simp at hm
  | cons c cs ih =>
    by_cases hc : c.hash = m
    · rw [List.dropWhile_cons]
      simp [hc]
    · have hp : decide (c.hash ≠ m) = true := by simp [hc]
      have hmem : m ∈ cs.map Commit.hash := by
        rcases List.mem_map.mp hm with ⟨d, hd, rfl⟩
        rcases List.mem_cons.mp hd with h1 | h1
        · exact absurd (congrArg Commit.hash h1.symm) hc
        · exact List.mem_map.mpr ⟨d, h1, rfl⟩
      rw [List.dropWhile_cons, if_pos hp]
      exact ih hmem

theorem getOutgoingCommits_model (M : RepoModel) (root x : Str) (marker : Option Str)
    (hwf : RepoWF M)
    (hx : (match marker with
           | Option.some m => resolveRef M m
           | Option.none => M.remoteTip) = x) :
    commitItems (getOutgoingCommits (modelBackend M) (Option.some root) marker)
      = (outgoingAfter M.history x).map expectedCommitItem := by
  obtain ⟨hbr, hne, hws, hnl, _⟩ := hwf
  have hsub : ∀ c ∈ outgoingAfter M.history x, c ∈ M.history := fun c hc =>
    (List.takeWhile_sublist _).subset hc
  have hstep :
      getOutgoingCommits (modelBackend M) (Option.some root) marker
        = (if (((splitChar '\n' (linesOut ((outgoingAfter M.history x).map commitLine))).filter keepLine).isEmpty)
           then [plainItem (str "No outgoing commits")]
           else ((splitChar '\n' (linesOut ((outgoingAfter M.history x).map commitLine))).filter keepLine).map commitItemOfLine) := by
    cases marker with
    | none =>
      simp only at hx
      subst hx
      simp only [getOutgoingCommits, getOutgoingCommitsBody, getCurrentBranch, modelBackend,
        hbr, resolveRef, eq_self_iff_true, if_true]
      cases h : (((splitChar '\n' (linesOut ((outgoingAfter M.history M.remoteTip).map commitLine))).filter keepLine).isEmpty) <;>
        simp [h]
    | some m =>
      simp only at hx
      simp only [getOutgoingCommits, getOutgoingCommitsBody, getCurrentBranch, modelBackend,
        hbr, hx]
      cases h : (((splitChar '\n' (linesOut ((outgoingAfter M.history x).map commitLine))).filter keepLine).isEmpty) <;>
        simp [h]
  rw [hstep, outgoing_lines M.history x hne hws hnl]
  cases hout : outgoingAfter M.history x with
  | nil => simp [commitItems_plain]
  | cons c cs =>
    have hmap : ((c :: cs).map commitLine).map commitItemOfLine
        = (c :: cs).map expectedCommitItem := by
      rw [List.map_map]
      apply List.map_congr_left
      intro a ha
      have hah : a ∈ M.history := hsub a (by rw [hout]; exact ha)
      exact commitItemOfLine_commitLine (space_not_mem_hash (hws a hah))
    rw [if_neg (by simp)]
    rw [hmap, commitItems_map_expected]

theorem getSyncedCommits_model (M : RepoModel) (m : Str) (cm : Commit) (rest : List Commit)
    (hwf : RepoWF M)
    (hdw : M.history.dropWhile (fun c => decide (c.hash ≠ m)) = cm :: rest)
    (hrest : rest ≠ []) :
    getSyncedCommits (modelBackend M) (Option.some m) = [expectedCommitItem cm] := by
  obtain ⟨hbr, hne, hws, hnl, _⟩ := hwf
  have hcm : cm ∈ M.history :=
    (List.dropWhile_sublist _).subset (by rw [hdw]; exact List.mem_cons_self _ _)
  have hkeep : keepLine (commitLine cm) = true :=
    keepLine_commitLine (hne cm hcm) (hws cm hcm)
  have hnlm : '\n' ∉ commitLine cm :=
    newline_not_mem_commitLine (hws cm hcm) (hnl cm hcm)
  have hsplit : splitChar '\n' (linesOut [commitLine cm]) = [commitLine cm, []] := by
    simpa using linesOut_splitChar (fun l hl => List.mem_singleton.mp hl ▸ hnlm)
  have hfilter : List.filter keepLine [commitLine cm, []] = [commitLine cm] := by
    simp [List.filter_cons, hkeep, show keepLine ([] : Str) = false from rfl]
  have hitem : commitItemOfLine (commitLine cm) = expectedCommitItem cm :=
    commitItemOfLine_commitLine (space_not_mem_hash (hws cm hcm))
  have hdw2 : M.history.dropWhile (fun c => !decide (c.hash = m)) = cm :: rest := by
    simpa [ne_eq, decide_not] using hdw
  simp [getSyncedCommits, getSyncedCommitsBody, getCurrentBranch, modelBackend,
    hdw, hdw2, hrest, hsplit, hfilter, hitem, hkeep]

/-!
Concrete fixtures used by witnesses and counterexamples.
-/

/-- A linear repository: branch `feature`, commits `c3, c2, c1, c0`
newest first, remote tracking tip and push marker at `c1`. -/
def mOut : RepoModel :=
  { branch := str "feature"
    history := [⟨str "c3", str "fix bug", []⟩, ⟨str "c2", str "add test", []⟩,
                ⟨str "c1", str "init", []⟩, ⟨str "c0", str "base", []⟩]
    remoteTip := str "c1" }

/-- Backend with two outgoing commits touching the same file: the newer
commit `h2` modifies `f.txt`, the older commit `h1` added it. -/
def c2Backend : GitBackend :=
  { revParseHead := .ok (str "main")
    isInsideWorkTree := .ok (str "true")
    remoteGetUrl := .ok (str "git@example.com:origin.git")
    mergeBase := fun _ => .error ⟨Option.none⟩
    logOneline := fun _ _ => .ok []
    logHashes := fun _ _ => .ok (str "h2\nh1\n")
    showNameStatus := fun h =>
      if h = str "h2" then .ok (str "M\tf.txt\n")
      else if h = str "h1" then .ok (str "A\tf.txt\n")
      else .error ⟨Option.none⟩
    logMarkerOneline := fun _ => .error ⟨Option.none⟩
    diffMarkerNameStatus := fun _ => .error ⟨Option.none⟩ }

/-- Backend with a three-commit outgoing range whose middle commit `h2`
fails the per-commit file-status query. -/
def c4Backend : GitBackend :=
  { revParseHead := .ok (str "main")
    isInsideWorkTree := .ok (str "true")
    remoteGetUrl := .ok (str "git@example.com:origin.git")
    mergeBase := fun _ => .error ⟨Option.none⟩
    logOneline := fun _ _ => .ok []
    logHashes := fun _ _ => .ok (str "h1\nh2\nh3\n")
    showNameStatus := fun h =>
      if h = str "h1" then .ok (str "A\tf1.txt\n")
      else if h = str "h3" then .ok (str "A\tf3.txt\n")
      else .error ⟨Option.some (str "boom")⟩
    logMarkerOneline := fun _ => .error ⟨Option.none⟩
    diffMarkerNameStatus := fun _ => .error ⟨Option.none⟩ }

/-- Backend whose synced-files query prints one line `XYZ` that has no
tab field separator. -/
def c5Backend : GitBackend :=
  { revParseHead := .ok (str "main")
    isInsideWorkTree := .ok (str "true")
    remoteGetUrl := .ok (str "git@example.com:origin.git")
    mergeBase := fun _ => .error ⟨Option.none⟩
    logOneline := fun _ _ => .ok []
    logHashes := fun _ _ => .ok []
    showNameStatus := fun _ => .error ⟨Option.none⟩
    logMarkerOneline := fun _ => .error ⟨Option.none⟩
    diffMarkerNameStatus := fun _ => .ok (str "XYZ\n") }

/-- Content backend where `x.txt` is missing at ref `abc123`: the
`git show` call rejects with git's "does not exist" message. -/
def c6Backend : ContentBackend :=
  { readFileWd := fun _ => .error ⟨Option.none⟩
    revParseVerify := fun _ => .ok (str "abc123")
    showRefFile := fun _ _ =>
      .error ⟨Option.some (str "fatal: path does not exist in abc123")⟩ }

/-- Backend whose branch query fails outright. -/
def c7Backend : GitBackend :=
  { revParseHead := .error ⟨Option.some (str "fatal: not a git repository")⟩
    isInsideWorkTree := .error ⟨Option.none⟩
    remoteGetUrl := .error ⟨Option.none⟩
    mergeBase := fun _ => .error ⟨Option.none⟩
    logOneline := fun _ _ => .error ⟨Option.none⟩
    logHashes := fun _ _ => .error ⟨Option.none⟩
    showNameStatus := fun _ => .error ⟨Option.none⟩
    logMarkerOneline := fun _ => .error ⟨Option.none⟩
    diffMarkerNameStatus := fun _ => .error ⟨Option.none⟩ }

/-- Backend with a branch and a remote but no remote tracking reference:
every log-range query against `origin/<branch>` rejects. -/
def c8Backend : GitBackend :=
  { revParseHead := .ok (str "main")
    isInsideWorkTree := .ok (str "true")
    remoteGetUrl := .ok (str "git@example.com:origin.git")
    mergeBase := fun _ => .error ⟨Option.none⟩
    logOneline := fun _ _ =>
      .error ⟨Option.some (str "fatal: unknown revision origin/main")⟩
    logHashes := fun _ _ => .error ⟨Option.none⟩
    showNameStatus := fun _ => .error ⟨Option.none⟩
    logMarkerOneline := fun _ => .error ⟨Option.none⟩
    diffMarkerNameStatus := fun _ => .error ⟨Option.none⟩ }

instance {ε α : Type} [DecidableEq ε] [DecidableEq α] : DecidableEq (Except ε α)
  | .error a, .error b =>
    if h : a = b then .isTrue (congrArg Except.error h)
    else .isFalse fun hc => h (Except.error.inj hc)
  | .error _, .ok _ => .isFalse fun hc => Except.noConfusion hc
  | .ok _, .error _ => .isFalse fun hc => Except.noConfusion hc
  | .ok a, .ok b =>
    if h : a = b then .isTrue (congrArg Except.ok h)
    else .isFalse fun hc => h (Except.ok.inj hc)

instance (M : RepoModel) : Decidable (RepoWF M) := by
  unfold RepoWF
  infer_instance

/-!
The claims.
-/

/-- Claim C9: whenever a workspace root is defined, the root level of the
tree returned by `getChildren` with no element is exactly the four
category items, 📦 Outgoing Commits, 📄 Changed Files, ✅ Synced Commits
and 📋 Synced Files in that order, for every backend state and every
push-marker value. -/
theorem c9_root_categories (b : GitBackend) (marker : Option Str) (root : Str) :
    getChildren b (Option.some root) marker Option.none
      = [expandedItem (str "📦 Outgoing Commits"),
         expandedItem (str "📄 Changed Files"),
         expandedItem (str "✅ Synced Commits"),
         expandedItem (str "📋 Synced Files")] := rfl

/-- Claim C10: with an undefined workspace root, `getChildren` returns
the empty list for every element, and the result does not depend on the
backend: no git query can influence it and no query failure can surface,
for any backend state whatsoever. -/
theorem c10_no_workspace_root (b : GitBackend) (marker : Option Str)
    (element : Option GitOutgoingItem) :
    getChildren b Option.none marker element = [] := rfl

/-- Claim C7: a refresh of the push-state tracker whose branch query or
merge-base query fails leaves the marker Unknown (`none`), whatever the
previously stored marker was — the tracker never retains a stale value
after a failed refresh. -/
theorem c7_failed_refresh_clears_marker (b : GitBackend) (prev : Option Str) :
    (∀ e, b.revParseHead = .error e → updateLastPushHash b prev = Option.none)
    ∧ (∀ out e, b.revParseHead = .ok out → b.mergeBase (trim out) = .error e →
        updateLastPushHash b prev = Option.none) := by
  constructor
  · intro e he
    simp [updateLastPushHash, he]
  · intro out e ho hm
    simp [updateLastPushHash, ho, hm]

/-- Witness for C7: on a backend whose branch query rejects, a refresh
that had previously stored a marker ends with the marker Unknown. -/
theorem c7_failed_refresh_clears_marker_witness :
    c7Backend.revParseHead = .error ⟨Option.some (str "fatal: not a git repository")⟩
    ∧ updateLastPushHash c7Backend (Option.some (str "c1")) = Option.none :=
  ⟨rfl, (c7_failed_refresh_clears_marker c7Backend (Option.some (str "c1"))).1
    ⟨Option.some (str "fatal: not a git repository")⟩ rfl⟩

/-- Claim C1: with a known push marker `m` present in the linear history,
the commit entries of `outgoingCommits()` are exactly the commits
strictly above `m` (the history splits as that prefix followed by the
suffix starting at `m`), listed newest first with pairwise distinct
hashes; with no marker they are the commits strictly above the remote
tracking tip. -/
theorem c1_outgoing_exact_range (M : RepoModel) (root m : Str)
    (hwf : RepoWF M)
    (hm : m ∈ M.history.map Commit.hash)
    (hres : resolveRef M m = m) :
    (commitItems (getOutgoingCommits (modelBackend M) (Option.some root) (Option.some m))
       = (outgoingAfter M.history m).map expectedCommitItem)
    ∧ outgoingAfter M.history m ++ M.history.dropWhile (fun c => decide (c.hash ≠ m))
        = M.history
    ∧ (M.history.dropWhile (fun c => decide (c.hash ≠ m))).head?.map Commit.hash
        = Option.some m
    ∧ ((outgoingAfter M.history m).map Commit.hash).Nodup
    ∧ commitItems (getOutgoingCommits (modelBackend M) (Option.some root) Option.none)
        = (outgoingAfter M.history M.remoteTip).map expectedCommitItem := by
  refine ⟨?_, ?_, ?_, ?_, ?_⟩
  · exact getOutgoingCommits_model M root m (Option.some m) hwf hres
  · simp [outgoingAfter, List.takeWhile_append_dropWhile]
  · exact head_dropWhile_hash hm
  · exact List.Nodup.sublist
      (List.Sublist.map Commit.hash (List.takeWhile_sublist _)) hwf.2.2.2.2
  · exact getOutgoingCommits_model M root M.remoteTip Option.none hwf rfl

/-- Witness for C1: on the concrete repository `mOut` with marker `c1`
the outgoing entries are `fix bug (c3)` then `add test (c2)`. -/
theorem c1_outgoing_exact_range_witness :
    RepoWF mOut
    ∧ str "c1" ∈ mOut.history.map Commit.hash
    ∧ resolveRef mOut (str "c1") = str "c1"
    ∧ ((commitItems (getOutgoingCommits (modelBackend mOut) (Option.some (str "/w")) (Option.some (str "c1")))
         = (outgoingAfter mOut.history (str "c1")).map expectedCommitItem)
       ∧ outgoingAfter mOut.history (str "c1")
           ++ mOut.history.dropWhile (fun c => decide (c.hash ≠ str "c1")) = mOut.history
       ∧ (mOut.history.dropWhile (fun c => decide (c.hash ≠ str "c1"))).head?.map Commit.hash
           = Option.some (str "c1")
       ∧ ((outgoingAfter mOut.history (str "c1")).map Commit.hash).Nodup
       ∧ commitItems (getOutgoingCommits (modelBackend mOut) (Option.some (str "/w")) Option.none)
           = (outgoingAfter mOut.history mOut.remoteTip).map expectedCommitItem) :=
  ⟨by decide, by decide, by decide,
   c1_outgoing_exact_range mOut (str "/w") (str "c1") (by decide) (by decide) (by decide)⟩

/-- Counterexample to claim C3: on the repository `mOut`, whose local
branch holds `[c3, c2, c1, c0]` with marker `m = c1`, `syncedCommits()`
returns only the marker commit `c1` itself — the earlier commit `c0` is
not included, although the claim says everything before the marker is —
while `outgoingCommits()` is `[c3, c2]` as the claim states. -/
theorem c3_counterexample :
    getSyncedCommits (modelBackend mOut) (Option.some (str "c1"))
      = [expectedCommitItem ⟨str "c1", str "init", []⟩]
    ∧ ((getSyncedCommits (modelBackend mOut) (Option.some (str "c1"))).all
        (fun it => decide (it.hash ≠ Option.some (str "c0"))) = true)
    ∧ commitItems (getOutgoingCommits (modelBackend mOut) (Option.some (str "/w"))
          (Option.some (str "c1")))
      = [expectedCommitItem ⟨str "c3", str "fix bug", []⟩,
         expectedCommitItem ⟨str "c2", str "add test", []⟩] := by
  decide

/-- Claim C3 as amended: with marker `m` a non-root commit of the linear
history, `syncedCommits()` returns exactly the single marker commit (the
range `(m^, m]`), not the commits before it, while `outgoingCommits()`
returns the commits strictly above `m`, newest first. -/
theorem c3_synced_is_marker_only (M : RepoModel) (root m : Str) (cm : Commit)
    (rest : List Commit)
    (hwf : RepoWF M)
    (hdw : M.history.dropWhile (fun c => decide (c.hash ≠ m)) = cm :: rest)
    (hrest : rest ≠ [])
    (hres : resolveRef M m = m) :
    getSyncedCommits (modelBackend M) (Option.some m) = [expectedCommitItem cm]
    ∧ commitItems (getOutgoingCommits (modelBackend M) (Option.some root) (Option.some m))
        = (outgoingAfter M.history m).map expectedCommitItem :=
  ⟨getSyncedCommits_model M m cm rest hwf hdw hrest,
   getOutgoingCommits_model M root m (Option.some m) hwf hres⟩

/-- Witness for the amended C3 on the repository `mOut` with marker `c1`:
synced = `[init (c1)]`, outgoing = `[fix bug (c3), add test (c2)]`. -/
theorem c3_synced_is_marker_only_witness :
    RepoWF mOut
    ∧ mOut.history.dropWhile (fun c => decide (c.hash ≠ str "c1"))
        = (⟨str "c1", str "init", []⟩ : Commit) :: [⟨str "c0", str "base", []⟩]
    ∧ ([⟨str "c0", str "base", []⟩] : List Commit) ≠ []
    ∧ resolveRef mOut (str "c1") = str "c1"
    ∧ (getSyncedCommits (modelBackend mOut) (Option.some (str "c1"))
         = [expectedCommitItem ⟨str "c1", str "init", []⟩]
       ∧ commitItems (getOutgoingCommits (modelBackend mOut) (Option.some (str "/w"))
             (Option.some (str "c1")))
           = (outgoingAfter mOut.history (str "c1")).map expectedCommitItem) :=
  ⟨by decide, by decide, by decide, by decide,
   c3_synced_is_marker_only mOut (str "/w") (str "c1") ⟨str "c1", str "init", []⟩
     [⟨str "c0", str "base", []⟩] (by decide) (by decide) (by decide) (by decide)⟩

theorem splitChar_cons_self (sep : Char) (cs : Str) :
    splitChar sep (sep :: cs) = [] :: splitChar sep cs := by
  simp [splitChar]

theorem splitChar_cons_ne {sep c : Char} {cs r : Str} {rs : List Str}
    (h : ¬ c = sep) (hcs : splitChar sep cs = r :: rs) :
    splitChar sep (c :: cs) = (c :: r) :: rs := by
  simp [splitChar, h, hcs]

/-- The tab split of a name-status row `S<TAB>f` whose status part is a
single character and whose file part has no tab. -/
theorem splitChar_tab_row {s : Char} {f : Str} (hs : ¬ s = '\t') (hft : '\t' ∉ f) :
    splitChar '\t' (s :: '\t' :: f) = [[s], f] :=
  splitChar_cons_ne hs (by rw [splitChar_cons_self, splitChar_not_mem hft])

/-- Counterexample to claim C2: two outgoing commits touch `f.txt`, the
older `h1` added it and the newer `h2` modified it; `outgoingFiles()`
reports it as Modified (📝, status `M`), not Added, because the commits
are processed newest first and the first-seen status wins. -/
theorem c2_counterexample :
    getChangedFiles c2Backend (Option.some (str "/w")) (Option.some (str "base"))
      = [⟨str "📝 f.txt", CollapsibleState.collapsedNone, Option.some (str "file"),
          Option.some (str "f.txt"), Option.some (str "M"), Option.none⟩]
    ∧ ((getChangedFiles c2Backend (Option.some (str "/w")) (Option.some (str "base"))).all
        (fun it => decide (it.status ≠ Option.some (str "A"))) = true) := by
  decide

/-- Claim C2 as amended: `outgoingFiles()` deduplicates by path keeping
the status of the first-processed commit, but the commits are processed
newest first (the order `git log` prints them); so when commit C1 adds
`f` and a later commit C2 modifies `f`, the retained status is C2's
`M` (Modified), not C1's `A` (Added). -/
theorem c2_newest_status_wins (b : GitBackend) (root m br w u f h1 h2 : Str)
    (hbr : b.revParseHead = .ok br)
    (hw : b.isInsideWorkTree = .ok w)
    (hu : b.remoteGetUrl = .ok u)
    (hlog : b.logHashes m (trim br) = .ok (linesOut [h2, h1]))
    (hk2 : keepLine h2 = true) (hk1 : keepLine h1 = true)
    (hn2 : '\n' ∉ h2) (hn1 : '\n' ∉ h1)
    (hs2 : b.showNameStatus h2 = .ok (linesOut ['M' :: '\t' :: f]))
    (hs1 : b.showNameStatus h1 = .ok (linesOut ['A' :: '\t' :: f]))
    (hf : f ≠ []) (hft : '\t' ∉ f) (hfn : '\n' ∉ f) :
    getChangedFiles b (Option.some root) (Option.some m)
      = [⟨str "📝" ++ ' ' :: f, CollapsibleState.collapsedNone, Option.some (str "file"),
          Option.some f, Option.some (str "M"), Option.none⟩] := by
  have hlnM : '\n' ∉ 'M' :: '\t' :: f := by
    intro hmem
    rcases List.mem_cons.mp hmem with h | h
    · exact absurd h (by decide)
    rcases List.mem_cons.mp h with h | h
    · exact absurd h (by decide)
    · exact hfn h
  have hlnA : '\n' ∉ 'A' :: '\t' :: f := by
    intro hmem
    rcases List.mem_cons.mp hmem with h | h
    · exact absurd h (by decide)
    rcases List.mem_cons.mp h with h | h
    · exact absurd h (by decide)
    · exact hfn h
  have hkM : keepLine ('M' :: '\t' :: f) = true :=
    keepLine_of_mem (List.mem_cons_self _ _) (by decide)
  have hkA : keepLine ('A' :: '\t' :: f) = true :=
    keepLine_of_mem (List.mem_cons_self _ _) (by decide)
  have hke : keepLine ([] : Str) = false := rfl
  have hsplitM : splitChar '\n' (linesOut ['M' :: '\t' :: f]) = ['M' :: '\t' :: f, []] := by
    simpa using linesOut_splitChar (fun l hl => by
      rw [List.mem_singleton.mp hl]; exact hlnM)
  have hsplitA : splitChar '\n' (linesOut ['A' :: '\t' :: f]) = ['A' :: '\t' :: f, []] := by
    simpa using linesOut_splitChar (fun l hl => by
      rw [List.mem_singleton.mp hl]; exact hlnA)
  have hfiltM : List.filter keepLine ['M' :: '\t' :: f, []] = ['M' :: '\t' :: f] := by
    simp [List.filter_cons, hkM, hke]
  have hfiltA : List.filter keepLine ['A' :: '\t' :: f, []] = ['A' :: '\t' :: f] := by
    simp [List.filter_cons, hkA, hke]
  have htabM : splitChar '\t' ('M' :: '\t' :: f) = [['M'], f] :=
    splitChar_tab_row (by decide) hft
  have htabA : splitChar '\t' ('A' :: '\t' :: f) = [['A'], f] :=
    splitChar_tab_row (by decide) hft
  have haddM : addFileLine [] ('M' :: '\t' :: f) = [(f, ['M'])] := by
    simp only [addFileLine, htabM]
    simp [insertFile, List.isEmpty_iff, hf]
  have haddA : addFileLine [(f, ['M'])] ('A' :: '\t' :: f) = [(f, ['M'])] := by
    simp only [addFileLine, htabA]
    simp [insertFile, List.isEmpty_iff, hf]
  have hpc2 : processCommit b [] h2 = .ok [(f, ['M'])] := by
    simp [processCommit, hs2, hsplitM, hfiltM, haddM]
  have hpc1 : processCommit b [(f, ['M'])] h1 = .ok [(f, ['M'])] := by
    simp [processCommit, hs1, hsplitA, hfiltA, haddA]
  have hM : str "M" = ['M'] := rfl
  have hfold : [h2, h1].foldlM (processCommit b) ([] : List (Str × Str))
      = .ok [(f, ['M'])] := by
    simp only [List.foldlM_cons, List.foldlM_nil, hpc2]
    show processCommit b [(f, ['M'])] h1 >>= pure = Except.ok [(f, ['M'])]
    rw [hpc1]
    rfl
  have hco : (trim (linesOut [h2, h1])).isEmpty = false := by
    apply trim_isEmpty_false
    rcases keepLine_iff.mp hk2 with ⟨c, hc, hwc⟩
    refine keepLine_of_mem ?_ hwc
    simp only [linesOut]
    exact List.mem_append_left _ hc
  have hsplitH : splitChar '\n' (linesOut [h2, h1]) = [h2, h1, []] := by
    simpa using linesOut_splitChar (by
      intro l hl
      rcases List.mem_cons.mp hl with h | h
      · rw [h]; exact hn2
      · rw [List.mem_singleton.mp h]; exact hn1)
  have hfiltH : List.filter keepLine [h2, h1, []] = [h2, h1] := by
    simp [List.filter_cons, hk2, hk1, hke]
  simp [getChangedFiles, getChangedFilesBody, getCurrentBranch, hbr, hw, hu, hlog,
    hco, hsplitH, hfiltH, hfold, getStatusIcon, hM]

/-- Witness for the amended C2 on the concrete backend `c2Backend`. -/
theorem c2_newest_status_wins_witness :
    c2Backend.logHashes (str "base") (trim (str "main"))
      = .ok (linesOut [str "h2", str "h1"])
    ∧ c2Backend.showNameStatus (str "h2") = .ok (linesOut ['M' :: '\t' :: str "f.txt"])
    ∧ c2Backend.showNameStatus (str "h1") = .ok (linesOut ['A' :: '\t' :: str "f.txt"])
    ∧ getChangedFiles c2Backend (Option.some (str "/w")) (Option.some (str "base"))
      = [⟨str "📝" ++ ' ' :: str "f.txt", CollapsibleState.collapsedNone,
          Option.some (str "file"), Option.some (str "f.txt"),
          Option.some (str "M"), Option.none⟩] :=
  ⟨by decide, by decide, by decide,
   c2_newest_status_wins c2Backend (str "/w") (str "base") (str "main") (str "true")
     (str "git@example.com:origin.git") (str "f.txt") (str "h1") (str "h2")
     rfl rfl rfl (by decide) (by decide) (by decide) (by decide) (by decide)
     (by decide) (by decide) (by decide) (by decide) (by decide)⟩

theorem foldlM_cons_ok {f : List (Str × Str) → Str → Except GitError (List (Str × Str))}
    {a b : List (Str × Str)} {x : Str} {xs : List Str}
    (hx : f a x = .ok b) :
    (x :: xs).foldlM f a = xs.foldlM f b := by
  rw [List.foldlM_cons, hx]
  rfl

theorem foldlM_cons_error {f : List (Str × Str) → Str → Except GitError (List (Str × Str))}
    {a : List (Str × Str)} {e : GitError} {x : Str} {xs : List Str}
    (hx : f a x = .error e) :
    (x :: xs).foldlM f a = .error e := by
  rw [List.foldlM_cons, hx]
  rfl

/-- Counterexample to claim C4: in a three-commit outgoing range whose
middle commit's file-status query fails, `outgoingFiles()` returns only
the single error entry — the files `f1.txt` and `f3.txt` contributed by
the two healthy commits are discarded, although the claim says they
still appear. -/
theorem c4_counterexample :
    getChangedFiles c4Backend (Option.some (str "/w")) (Option.some (str "base"))
      = [plainItem (str "Error loading files: boom")]
    ∧ ((getChangedFiles c4Backend (Option.some (str "/w")) (Option.some (str "base"))).all
        (fun it => decide (it.file = Option.none)) = true) := by
  decide

/-- Claim C4 as amended: if the per-commit file-status query fails for
any commit of the outgoing range, the whole changed-files computation
aborts: the result is the single informational error entry, and the
files already gathered from the other commits are discarded. -/
theorem c4_one_failure_discards_all (b : GitBackend) (root m br w u s1 h1 h2 h3 : Str)
    (e : GitError)
    (hbr : b.revParseHead = .ok br)
    (hw : b.isInsideWorkTree = .ok w)
    (hu : b.remoteGetUrl = .ok u)
    (hlog : b.logHashes m (trim br) = .ok (linesOut [h1, h2, h3]))
    (hk1 : keepLine h1 = true) (hk2 : keepLine h2 = true) (hk3 : keepLine h3 = true)
    (hn1 : '\n' ∉ h1) (hn2 : '\n' ∉ h2) (hn3 : '\n' ∉ h3)
    (hs1 : b.showNameStatus h1 = .ok s1)
    (hs2 : b.showNameStatus h2 = .error e) :
    getChangedFiles b (Option.some root) (Option.some m)
      = [plainItem (str "Error loading files: " ++ errText e)] := by
  have hpc1 : processCommit b [] h1
      = .ok (((splitChar '\n' s1).filter keepLine).foldl addFileLine []) := by
    simp [processCommit, hs1]
  have hpc2 : processCommit b (((splitChar '\n' s1).filter keepLine).foldl addFileLine []) h2
      = .error e := by
    simp [processCommit, hs2]
  have hfold : [h1, h2, h3].foldlM (processCommit b) ([] : List (Str × Str))
      = .error e := by
    rw [foldlM_cons_ok hpc1, foldlM_cons_error hpc2]
  have hco : (trim (linesOut [h1, h2, h3])).isEmpty = false := by
    apply trim_isEmpty_false
    rcases keepLine_iff.mp hk1 with ⟨c, hc, hwc⟩
    refine keepLine_of_mem ?_ hwc
    simp only [linesOut]
    exact List.mem_append_left _ hc
  have hsplitH : splitChar '\n' (linesOut [h1, h2, h3]) = [h1, h2, h3, []] := by
    simpa using linesOut_splitChar (by
      intro l hl
      rcases List.mem_cons.mp hl with h | h
      · rw [h]; exact hn1
      rcases List.mem_cons.mp h with h | h
      · rw [h]; exact hn2
      · rw [List.mem_singleton.mp h]; exact hn3)
  have hfiltH : List.filter keepLine [h1, h2, h3, []] = [h1, h2, h3] := by
    simp [List.filter_cons, hk1, hk2, hk3, show keepLine ([] : Str) = false from rfl]
  simp [getChangedFiles, getChangedFilesBody, getCurrentBranch, hbr, hw, hu, hlog,
    hco, hsplitH, hfiltH, hfold]

/-- Witness for the amended C4 on the concrete backend `c4Backend`. -/
theorem c4_one_failure_discards_all_witness :
    c4Backend.logHashes (str "base") (trim (str "main"))
      = .ok (linesOut [str "h1", str "h2", str "h3"])
    ∧ c4Backend.showNameStatus (str "h1") = .ok (str "A\tf1.txt\n")
    ∧ c4Backend.showNameStatus (str "h2") = .error ⟨Option.some (str "boom")⟩
    ∧ getChangedFiles c4Backend (Option.some (str "/w")) (Option.some (str "base"))
      = [plainItem (str "Error loading files: "
          ++ errText ⟨Option.some (str "boom")⟩)] :=
  ⟨by decide, by decide, by decide,
   c4_one_failure_discards_all c4Backend (str "/w") (str "base") (str "main")
     (str "true") (str "git@example.com:origin.git") (str "A\tf1.txt\n")
     (str "h1") (str "h2") (str "h3") ⟨Option.some (str "boom")⟩
     rfl rfl rfl (by decide) (by decide) (by decide) (by decide) (by decide)
     (by decide) (by decide) rfl rfl⟩

/-- Counterexample to claim C5: the synced file-change query receives
the single output line `XYZ`, which has no tab field separator; instead
of being skipped it becomes a result entry with an undefined file, the
whole line as its status, and the label `�� undefined`. -/
theorem c5_counterexample :
    getSyncedFiles c5Backend (Option.some (str "m1"))
      = [⟨str "�� undefined", CollapsibleState.collapsedNone, Option.some (str "file"),
          Option.none, Option.some (str "XYZ"), Option.none⟩] := by
  decide

/-- Claim C5 as amended: blank lines are skipped by both file-change
queries, and the outgoing query also skips any line lacking the tab
separator; but in the synced query a non-blank line lacking the tab
becomes a result entry with an undefined file and the whole line as its
status (it still causes no hard failure). -/
theorem c5_tab_tolerance_outgoing_only :
    (keepLine [] = false)
    ∧ (∀ (acc : List (Str × Str)) (line : Str), '\t' ∉ line →
        addFileLine acc line = acc)
    ∧ (∀ (b : GitBackend) (m l br : Str),
        b.revParseHead = .ok br →
        b.diffMarkerNameStatus m = .ok (linesOut [l]) →
        keepLine l = true → '\t' ∉ l → '\n' ∉ l →
        getSyncedFiles b (Option.some m)
          = [⟨getStatusIcon l ++ ' ' :: str "undefined", CollapsibleState.collapsedNone,
              Option.some (str "file"), Option.none, Option.some l, Option.none⟩]) := by
  refine ⟨rfl, ?_, ?_⟩
  · intro acc line h
    simp [addFileLine, splitChar_not_mem h]
  · intro b m l br hbr hdiff hk ht hn
    have hco : (trim (linesOut [l])).isEmpty = false := by
      apply trim_isEmpty_false
      rcases keepLine_iff.mp hk with ⟨c, hc, hwc⟩
      refine keepLine_of_mem ?_ hwc
      simp only [linesOut]
      exact List.mem_append_left _ hc
    have hsplit : splitChar '\n' (linesOut [l]) = [l, []] := by
      simpa using linesOut_splitChar (fun x hx => by
        rw [List.mem_singleton.mp hx]; exact hn)
    have hfilt : List.filter keepLine [l, []] = [l] := by
      simp [List.filter_cons, hk, show keepLine ([] : Str) = false from rfl]
    have htab : splitChar '\t' l = [l] := splitChar_not_mem ht
    simp [getSyncedFiles, getSyncedFilesBody, getCurrentBranch, hbr, hdiff,
      hco, hsplit, hfilt, htab, jsShow]

/-- Witness for the amended C5 on the concrete backend `c5Backend`. -/
theorem c5_tab_tolerance_outgoing_only_witness :
    c5Backend.diffMarkerNameStatus (str "m1") = .ok (linesOut [str "XYZ"])
    ∧ keepLine (str "XYZ") = true
    ∧ '\t' ∉ str "XYZ"
    ∧ addFileLine [] (str "XYZ") = []
    ∧ getSyncedFiles c5Backend (Option.some (str "m1"))
      = [⟨getStatusIcon (str "XYZ") ++ ' ' :: str "undefined",
          CollapsibleState.collapsedNone, Option.some (str "file"),
          Option.none, Option.some (str "XYZ"), Option.none⟩] :=
  ⟨by decide, by decide, by decide,
   c5_tab_tolerance_outgoing_only.2.1 [] (str "XYZ") (by decide),
   c5_tab_tolerance_outgoing_only.2.2 c5Backend (str "m1") (str "XYZ") (str "main")
     rfl rfl (by decide) (by decide) (by decide)⟩

/-- File-diff backend whose remote-branch file read rejects while the
local-branch read succeeds. -/
def c6FdBackend : FileDiffBackend :=
  { revParseHead := .ok (str "main")
    showBranchFile := fun _ _ => .ok (str "new content")
    showOriginFile := fun _ _ => .error ⟨Option.some (str "fatal: path does not exist")⟩ }

/-- Counterexample to claim C6: when `x.txt` does not exist at ref
`abc123`, `provideTextDocumentContent` does not return empty content; it
returns the placeholder document `File "x.txt" does not exist at commit
abc123`. -/
theorem c6_counterexample :
    provideTextDocumentContent c6Backend (Option.some (str "/w")) (str "x.txt")
        (Option.some (str "abc123")) false
      = .ok (str "File \"x.txt\" does not exist at commit abc123")
    ∧ provideTextDocumentContent c6Backend (Option.some (str "/w")) (str "x.txt")
        (Option.some (str "abc123")) false ≠ .ok [] := by
  decide

/-- Claim C6 as amended: the content provider returns the file's content
at the ref when the git queries succeed; when the path does not exist at
the ref it returns a non-empty placeholder message naming the file and
the ref, not empty content.  Separately, the `showFileDiff` handler of
the src/unnamed/part_001 variant does substitute empty old content when
the file is missing from the remote branch. -/
theorem c6_placeholder_not_empty (cb : ContentBackend) (root p r v : Str)
    (hv : cb.revParseVerify r = .ok v) :
    (∀ out, cb.showRefFile r p = .ok out →
       provideTextDocumentContent cb (Option.some root) p (Option.some r) false = .ok out)
    ∧ (∀ msg, cb.showRefFile r p = .error ⟨Option.some msg⟩ →
        strIncludes msg (str "does not exist") = true →
        provideTextDocumentContent cb (Option.some root) p (Option.some r) false
          = .ok (str "File \"" ++ p ++ str "\" does not exist at commit " ++ r)
        ∧ provideTextDocumentContent cb (Option.some root) p (Option.some r) false
          ≠ .ok [])
    ∧ (∀ (fb : FileDiffBackend) (stv br newC : Str) (e : GitError),
        fb.revParseHead = .ok br →
        ¬ stv = str "A" →
        fb.showOriginFile (trim br) p = .error e →
        fb.showBranchFile (trim br) p = .ok newC →
        showFileDiffContents fb p stv = .ok ([], newC)) := by
  refine ⟨?_, ?_, ?_⟩
  · intro out hout
    simp [provideTextDocumentContent, hv, hout]
  · intro msg hmsg hinc
    have heq : provideTextDocumentContent cb (Option.some root) p (Option.some r) false
        = .ok (str "File \"" ++ p ++ str "\" does not exist at commit " ++ r) := by
      simp [provideTextDocumentContent, hv, hmsg, hinc]
    refine ⟨heq, ?_⟩
    rw [heq]
    intro hcontra
    have h2 := Except.ok.inj hcontra
    rcases List.append_eq_nil.mp h2 with ⟨h3, _⟩
    rcases List.append_eq_nil.mp h3 with ⟨h4, _⟩
    rcases List.append_eq_nil.mp h4 with ⟨h5, _⟩
    exact absurd h5 (by decide)
  · intro fb stv br newC e hbr hst ho hb
    simp [showFileDiffContents, hbr, hst, ho, hb]

/-- Witness for the amended C6 on `c6Backend` and `c6FdBackend`. -/
theorem c6_placeholder_not_empty_witness :
    c6Backend.revParseVerify (str "abc123") = .ok (str "abc123")
    ∧ c6Backend.showRefFile (str "abc123") (str "x.txt")
        = .error ⟨Option.some (str "fatal: path does not exist in abc123")⟩
    ∧ (provideTextDocumentContent c6Backend (Option.some (str "/w")) (str "x.txt")
         (Option.some (str "abc123")) false
         = .ok (str "File \"" ++ str "x.txt" ++ str "\" does not exist at commit "
             ++ str "abc123")
       ∧ provideTextDocumentContent c6Backend (Option.some (str "/w")) (str "x.txt")
         (Option.some (str "abc123")) false ≠ .ok [])
    ∧ showFileDiffContents c6FdBackend (str "x.txt") (str "M")
        = .ok ([], str "new content") :=
  ⟨rfl, rfl,
   (c6_placeholder_not_empty c6Backend (str "/w") (str "x.txt") (str "abc123")
       (str "abc123") rfl).2.1
     (str "fatal: path does not exist in abc123") rfl (by decide),
   (c6_placeholder_not_empty c6Backend (str "/w") (str "x.txt") (str "abc123")
       (str "abc123") rfl).2.2
     c6FdBackend (str "M") (str "main") (str "new content")
     ⟨Option.some (str "fatal: path does not exist")⟩ rfl (by decide) rfl rfl⟩

/-- Claim C8: no error escapes any of the four category queries — each
either returns its try-body result or converts the failure into its
single informational entry — and, in particular, when no remote tracking
reference exists (the `origin/<branch>..<branch>` log rejects),
`outgoingCommits()` returns the error entry instead of throwing. -/
theorem c8_no_error_escapes (b : GitBackend) (root marker : Option Str) :
    (∀ l, getOutgoingCommitsBody b root marker = .ok l →
        getOutgoingCommits b root marker = l)
    ∧ (∀ e, getOutgoingCommitsBody b root marker = .error e →
        getOutgoingCommits b root marker
          = [plainItem (str "Error loading commits: " ++ errText e)])
    ∧ (∀ l, getChangedFilesBody b root marker = .ok l →
        getChangedFiles b root marker = l)
    ∧ (∀ e, getChangedFilesBody b root marker = .error e →
        getChangedFiles b root marker
          = [plainItem (str "Error loading files: " ++ errText e)])
    ∧ (∀ l, getSyncedCommitsBody b marker = .ok l → getSyncedCommits b marker = l)
    ∧ (∀ e, getSyncedCommitsBody b marker = .error e →
        getSyncedCommits b marker = [plainItem (str "Error loading synced commits")])
    ∧ (∀ l, getSyncedFilesBody b marker = .ok l → getSyncedFiles b marker = l)
    ∧ (∀ e, getSyncedFilesBody b marker = .error e →
        getSyncedFiles b marker = [plainItem (str "Error loading synced files")])
    ∧ (∀ r br w u e, root = Option.some r →
        b.revParseHead = .ok br → b.isInsideWorkTree = .ok w →
        b.remoteGetUrl = .ok u →
        b.logOneline (str "origin/" ++ trim br) (trim br) = .error e →
        getOutgoingCommits b root Option.none
          = [plainItem (str "Error loading commits: " ++ errText e)]) := by
  refine ⟨?_, ?_, ?_, ?_, ?_, ?_, ?_, ?_, ?_⟩
  · intro l h; simp [getOutgoingCommits, h]
  · intro e h; simp [getOutgoingCommits, h]
  · intro l h; simp [getChangedFiles, h]
  · intro e h; simp [getChangedFiles, h]
  · intro l h; simp [getSyncedCommits, h]
  · intro e h; simp [getSyncedCommits, h]
  · intro l h; simp [getSyncedFiles, h]
  · intro e h; simp [getSyncedFiles, h]
  · intro r br w u e hroot hbr hw hu hlog
    subst hroot
    simp [getOutgoingCommits, getOutgoingCommitsBody, getCurrentBranch,
      hbr, hw, hu, hlog]

/-- Witness for C8 on `c8Backend`, a repository with a remote but no
remote tracking reference: the outgoing query returns the informational
error entry, it does not throw. -/
theorem c8_no_error_escapes_witness :
    c8Backend.logOneline (str "origin/" ++ trim (str "main")) (trim (str "main"))
      = .error ⟨Option.some (str "fatal: unknown revision origin/main")⟩
    ∧ getOutgoingCommits c8Backend (Option.some (str "/w")) Option.none
      = [plainItem (str "Error loading commits: "
          ++ errText ⟨Option.some (str "fatal: unknown revision origin/main")⟩)] :=
  ⟨rfl,
   (c8_no_error_escapes c8Backend (Option.some (str "/w")) Option.none).2.2.2.2.2.2.2.2
     (str "/w") (str "main") (str "true") (str "git@example.com:origin.git")
     ⟨Option.some (str "fatal: unknown revision origin/main")⟩
     rfl rfl rfl rfl rfl⟩
